import Mathlib

/-!
Formal model of the RakiBot retrieval, confidence-scoring and source-escalation
pipeline, shallowly embedded from the repository sources:

* `app/services/enhanced_embedding_service.py` — `EmbeddingCache`,
  `AdvancedEmbeddingService.retrieve_relevant_chunks`
* `app/services/agh_rag_service.py` — `AGHRAGService` (`_retrieve_relevant_chunks`,
  `_calculate_trust_score`, `_fix_known_errors`, `answer_question`)
* `app/core/advanced_rag_engine.py` — `AdvancedAtlasRAGEngine._estimate_confidence`

Modelling conventions: Python floats are modelled as rationals (`ℚ`) except for
the cosine-similarity computation, which needs a square root and is modelled over
`ℝ`; machine time is an integer number of seconds; external effects (the Ollama
embedding and generation endpoints, the web-search service) are oracle inputs to
the orchestrator model; strings are processed through executable `List Char`
functions mirroring the Python string/regex operations on ASCII text.
-/

/-! ### Basic string utilities (ASCII model of the Python operations used) -/

/-- Python regex `\w` word character, ASCII model: letters, digits, underscore. -/
def wordChar (c : Char) : Bool := c.isAlphanum || c == '_'

/-- Does `s` start with the pattern `p` (character lists)? -/
def startsWithL : List Char → List Char → Bool
  | _, [] => true
  | [], _ :: _ => false
  | c :: cs, p :: ps => c == p && startsWithL cs ps

/-- Python substring containment `pat in s` on character lists. -/
def containsSub : List Char → List Char → Bool
  | s, pat =>
    startsWithL s pat ||
      match s with
      | [] => false
      | _ :: cs => containsSub cs pat

/-- Python `pat in s` on strings. -/
def strContains (s pat : String) : Bool := containsSub s.data pat.data

/-- Python `str.lower()` (ASCII model). -/
def pyLower (s : String) : String := ⟨s.data.map Char.toLower⟩

/-- Python `str.strip()`: drop whitespace from both ends. -/
def pyStrip (s : String) : String :=
  ⟨((s.data.dropWhile Char.isWhitespace).reverse.dropWhile Char.isWhitespace).reverse⟩

/-- Python `str.split()` with no argument: maximal runs of non-whitespace. -/
def pySplitAux (acc : List Char) : List Char → List (List Char)
  | [] => if acc.isEmpty then [] else [acc.reverse]
  | c :: r =>
    if Char.isWhitespace c then
      if acc.isEmpty then pySplitAux [] r else acc.reverse :: pySplitAux [] r
    else pySplitAux (c :: acc) r

/-- Python `str.split()` on a string. -/
def pySplit (s : String) : List String := (pySplitAux [] s.data).map List.asString

/-- Python `re.findall` of the pattern \b\w+\b over `s`: maximal runs of word characters. -/
def wordRunsAux (acc : List Char) : List Char → List (List Char)
  | [] => if acc.isEmpty then [] else [acc.reverse]
  | c :: r =>
    if wordChar c then wordRunsAux (c :: acc) r
    else if acc.isEmpty then wordRunsAux [] r else acc.reverse :: wordRunsAux [] r

/-- Word tokens of `s.lower()`, as used by `_calculate_trust_score`
(`re.findall` of \b\w+\b over `text.lower()`). -/
def findallWords (s : String) : List String :=
  (wordRunsAux [] (pyLower s).data).map List.asString

/-- Size of the set intersection of two Python word sets, modelled on
deduplicated lists. -/
def interCount (a b : List String) : ℕ := ((a.dedup).filter (fun w => w ∈ b)).length

/-! ### EmbeddingCache (`enhanced_embedding_service.py` lines 58-163) -/

/-- One cache entry: the stored embedding vector together with its creation
timestamp in seconds (the code stores `datetime.now().isoformat()` in the
metadata file and the vector in a `.pkl` file; both are collapsed into one
entry here). -/
structure CacheEntry where
  vector : List ℚ
  timestamp : ℤ
deriving DecidableEq

/-- State of `EmbeddingCache`: an association list keyed by the cache key, most
recent write first (`List.lookup` finds the most recent write, which matches the
last-write-wins dict/file semantics of the code). -/
structure EmbeddingCache where
  entries : List (String × CacheEntry)
deriving DecidableEq

/-- TTL of the cache in seconds: `self.ttl_hours = 24 * 7` (line 65) applied as
`timedelta(hours=self.ttl_hours)` (line 87). -/
def ttlSeconds : ℤ := 24 * 7 * 3600

/-- Cache key from `_get_cache_key` (lines 67-70):
`hashlib.md5(f"<text>:<model>".encode()).hexdigest()`. The md5 hash is modelled
as the hashed string `text ++ ":" ++ model` itself; md5 collisions are assumed
absent, as the spec itself requires of the key hash. -/
def cacheKey (text model : String) : String := text ++ ":" ++ model

/-- Model of `EmbeddingCache.get` (lines 72-99): miss when the key is absent;
when the entry is older than the TTL (strictly: `now - cache_time >
timedelta(hours=ttl)`) the entry is invalidated (removed) and a miss is
returned; otherwise the stored vector is returned. -/
def EmbeddingCache.get (c : EmbeddingCache) (text model : String) (now : ℤ) :
    Option (List ℚ) × EmbeddingCache :=
  match c.entries.lookup (cacheKey text model) with
  | none => (none, c)
  | some e =>
    if now - e.timestamp > ttlSeconds then
      (none, ⟨c.entries.filter (fun p => !(p.1 == cacheKey text model))⟩)
    else (some e.vector, c)

/-- Model of `EmbeddingCache.set` (lines 101-121): store the vector under the
derived key with the current timestamp (overwriting any previous entry; here by
shadowing, since `lookup` returns the most recent write). -/
def EmbeddingCache.set (c : EmbeddingCache) (text model : String) (v : List ℚ)
    (now : ℤ) : EmbeddingCache :=
  ⟨(cacheKey text model, ⟨v, now⟩) :: c.entries⟩

/-- C4: `Put(t, m, v)` followed immediately by `Get(t, m)` returns the stored
vector, and once strictly more than the TTL (7×24 hours) has elapsed since the
`Put`, `Get(t, m)` returns a miss (`none`), never the expired vector. -/
theorem cache_roundtrip_and_expiry (c : EmbeddingCache) (t m : String) (v : List ℚ)
    (putTime getTime : ℤ) :
    (((c.set t m v putTime).get t m putTime).1 = some v) ∧
    (getTime - putTime > ttlSeconds →
      ((c.set t m v putTime).get t m getTime).1 = none) := by
  constructor
  · simp [EmbeddingCache.get, EmbeddingCache.set, List.lookup, ttlSeconds]
  · intro h
    simp only [EmbeddingCache.get, EmbeddingCache.set, List.lookup, beq_self_eq_true]
    rw [if_pos h]

/-- Witness for C4 at concrete inputs: a put at time 0, read back at time 0 and
again at time 700000 s (> 604800 s = 7 days). -/
theorem cache_roundtrip_and_expiry_witness :
    ((((EmbeddingCache.mk []).set "hello" "modelA" [1, 2] 0).get "hello" "modelA" 0).1
        = some [1, 2]) ∧
    ((((EmbeddingCache.mk []).set "hello" "modelA" [1, 2] 0).get "hello" "modelA"
        700000).1 = none) :=
  ⟨(cache_roundtrip_and_expiry (EmbeddingCache.mk []) "hello" "modelA" [1, 2] 0 0).1,
   (cache_roundtrip_and_expiry (EmbeddingCache.mk []) "hello" "modelA" [1, 2] 0
      700000).2 (by decide)⟩

/-- Helper: the cache key determines the model name (no cross-model collisions
before hashing). -/
theorem cacheKey_model_injective {t m1 m2 : String}
    (h : cacheKey t m1 = cacheKey t m2) : m1 = m2 := by
  have hd : (cacheKey t m1).data = (cacheKey t m2).data := by rw [h]
  simp only [cacheKey, String.data_append] at hd
  have := List.append_cancel_left hd
  exact String.ext this

/-- C5: the model name is part of the cache key, so a vector stored under model
`m1` is never returned for a request with a different model `m2`: after
`Put(t, m1, v)` into an empty cache, `Get(t, m2)` misses at every time. -/
theorem cache_never_crosses_models (t m1 m2 : String) (v : List ℚ)
    (putTime getTime : ℤ) (h : m1 ≠ m2) :
    (((EmbeddingCache.mk []).set t m1 v putTime).get t m2 getTime).1 = none := by
  have hk : (cacheKey t m2 == cacheKey t m1) = false := by
    apply beq_eq_false_iff_ne.mpr
    intro contra
    exact h (cacheKey_model_injective contra).symm
  simp [EmbeddingCache.get, EmbeddingCache.set, List.lookup, hk]

/-- Witness for C5: the spec scenario — store `("hello", "modelA")`, request
`("hello", "modelB")` misses. -/
theorem cache_never_crosses_models_witness :
    (((EmbeddingCache.mk []).set "hello" "modelA" [1, 2, 3] 0).get "hello" "modelB"
      0).1 = none :=
  cache_never_crosses_models "hello" "modelA" "modelB" [1, 2, 3] 0 0 (by decide)

/-! ### Cosine similarity with zero-norm guard (C8) -/

/-- Dot product of two vectors, `np.dot` on equal-length float vectors. -/
noncomputable def dotProd (a b : List ℝ) : ℝ := (List.zipWith (· * ·) a b).sum

/-- Euclidean norm `np.linalg.norm`. -/
noncomputable def l2norm (a : List ℝ) : ℝ :=
  Real.sqrt ((a.map (fun x => x ^ 2)).sum)

/-- Cosine similarity as computed in `AGHRAGService._retrieve_relevant_chunks`
(`agh_rag_service.py` lines 213-215): `dot_products / (norms + 1e-8)` with the
epsilon guard in the denominator. -/
noncomputable def cosSimAGH (a b : List ℝ) : ℝ :=
  dotProd a b / (l2norm a * l2norm b + 1 / 100000000)

/-- Cosine similarity as computed by sklearn `cosine_similarity` in
`AdvancedEmbeddingService.retrieve_relevant_chunks`
(`enhanced_embedding_service.py` lines 458-461): rows are L2-normalised, and a
zero norm is replaced by 1 before dividing. -/
noncomputable def cosSimSK (a b : List ℝ) : ℝ :=
  dotProd a b /
    ((if l2norm a = 0 then 1 else l2norm a) * (if l2norm b = 0 then 1 else l2norm b))

/-- Helper: the sum of squares of the entries is nonnegative. -/
theorem sumSq_nonneg (a : List ℝ) : 0 ≤ (a.map (fun x => x ^ 2)).sum := by
  apply List.sum_nonneg
  intro x hx
  obtain ⟨y, _, rfl⟩ := List.mem_map.mp hx
  exact sq_nonneg y

/-- Helper: a zero sum of squares forces all entries to be zero. -/
theorem sumSq_zero_entries {a : List ℝ} (h : (a.map (fun x => x ^ 2)).sum = 0) :
    ∀ x ∈ a, x = 0 := by
  induction a with
  | nil => intro x hx; cases hx
  | cons y t ih =>
    simp only [List.map_cons, List.sum_cons] at h
    have h2 := (add_eq_zero_iff_of_nonneg (sq_nonneg y) (sumSq_nonneg t)).mp h
    intro x hx
    rcases List.mem_cons.mp hx with hx | hx
    · subst hx
      exact (pow_eq_zero_iff two_ne_zero).mp h2.1
    · exact ih h2.2 x hx

/-- Helper: a vector of zero Euclidean norm has all entries zero. -/
theorem l2norm_eq_zero_entries {a : List ℝ} (h : l2norm a = 0) :
    ∀ x ∈ a, x = 0 :=
  sumSq_zero_entries ((Real.sqrt_eq_zero (sumSq_nonneg a)).mp h)

/-- Helper: if every entry of the left vector is zero, the dot product is zero. -/
theorem dotProd_left_zero {a : List ℝ} (b : List ℝ) (h : ∀ x ∈ a, x = 0) :
    dotProd a b = 0 := by
  induction a generalizing b with
  | nil => simp [dotProd]
  | cons y t ih =>
    cases b with
    | nil => simp [dotProd]
    | cons z u =>
      have hy : y = 0 := h y (List.mem_cons_self y t)
      have ht : ∀ x ∈ t, x = 0 := fun x hx => h x (List.mem_cons_of_mem y hx)
      simp only [dotProd, List.zipWith_cons_cons, List.sum_cons, hy, zero_mul, zero_add]
      exact ih u ht

/-- Helper: if every entry of the right vector is zero, the dot product is zero. -/
theorem dotProd_right_zero (a : List ℝ) {b : List ℝ} (h : ∀ x ∈ b, x = 0) :
    dotProd a b = 0 := by
  induction a generalizing b with
  | nil => simp [dotProd]
  | cons y t ih =>
    cases b with
    | nil => simp [dotProd]
    | cons z u =>
      have hz : z = 0 := h z (List.mem_cons_self z u)
      have hu : ∀ x ∈ u, x = 0 := fun x hx => h x (List.mem_cons_of_mem z hx)
      simp only [dotProd, List.zipWith_cons_cons, List.sum_cons, hz, mul_zero, zero_add]
      exact ih hu

/-- C8 (amended): both similarity computations guard zero norms — the AGH
denominator `‖a‖·‖b‖ + 1e-8` is strictly positive and the sklearn denominator is
nonzero, so division by zero never occurs; and whenever either vector has zero
norm the computed similarity is `0` (the neutral value, not the minimum possible
similarity). -/
theorem cosine_zero_norm_guard (a b : List ℝ) :
    (0 < l2norm a * l2norm b + 1 / 100000000) ∧
    ((if l2norm a = 0 then 1 else l2norm a) *
      (if l2norm b = 0 then 1 else l2norm b) ≠ 0) ∧
    (l2norm a = 0 ∨ l2norm b = 0 → cosSimAGH a b = 0 ∧ cosSimSK a b = 0) := by
  have hna : 0 ≤ l2norm a := Real.sqrt_nonneg _
  have hnb : 0 ≤ l2norm b := Real.sqrt_nonneg _
  refine ⟨?_, ?_, ?_⟩
  · have : (0:ℝ) < 1 / 100000000 := by norm_num
    nlinarith
  · have ha : (if l2norm a = 0 then (1:ℝ) else l2norm a) ≠ 0 := by
      split
      · norm_num
      · assumption
    have hb : (if l2norm b = 0 then (1:ℝ) else l2norm b) ≠ 0 := by
      split
      · norm_num
      · assumption
    exact mul_ne_zero ha hb
  · intro h
    have hd : dotProd a b = 0 := by
      rcases h with h | h
      · exact dotProd_left_zero b (l2norm_eq_zero_entries h)
      · exact dotProd_right_zero a (l2norm_eq_zero_entries h)
    constructor
    · simp [cosSimAGH, hd]
    · simp [cosSimSK, hd]

/-- Witness for C8 at a concrete zero-norm pair: query `[0]` against document
`[1]`. -/
theorem cosine_zero_norm_guard_witness :
    cosSimAGH [(0:ℝ)] [1] = 0 ∧ cosSimSK [(0:ℝ)] [1] = 0 :=
  (cosine_zero_norm_guard [(0:ℝ)] [1]).2.2 (Or.inl (by simp [l2norm]))

/-- Counterexample to C8 as stated: a zero-norm pair gets similarity `0`, which
is not the minimum possible value — the pair `[1]`, `[-1]` gets a strictly
smaller similarity. -/
theorem cosine_zero_norm_not_minimum_cex :
    cosSimAGH [(0:ℝ)] [1] = 0 ∧ cosSimAGH [(1:ℝ)] [-1] < cosSimAGH [(0:ℝ)] [1] := by
  have h0 : cosSimAGH [(0:ℝ)] [1] = 0 := by
    simp [cosSimAGH, dotProd]
  refine ⟨h0, ?_⟩
  rw [h0]
  have hd : dotProd [(1:ℝ)] [-1] = -1 := by
    simp [dotProd]
  have hn : l2norm [(1:ℝ)] = 1 := by
    simp [l2norm]
  have hn2 : l2norm [(-1:ℝ)] = 1 := by
    simp [l2norm]
  rw [cosSimAGH, hd, hn, hn2]
  apply div_neg_of_neg_of_pos
  · norm_num
  · norm_num

/-! ### Similarity retrieval: threshold filter, top-k fallback, ordering (C1, C6)

Both retrieval routines first compute a similarity array, then select and order
indices. The index-selection stage is modelled here over an arbitrary linear
order of similarity values (`numpy` float comparisons are total on the values
produced); the similarity array itself is the `sims` input. -/

section Retrieval

variable {α : Type} [LinearOrder α] [Inhabited α]

/-- Value of the similarity array at index `i` (`similarities[i]`). -/
def simAt (sims : List α) (i : ℕ) : α := sims.getD i default

/-- Position comparison for one concrete instantiation of `np.argsort(vals)`:
ascending by value, ties broken by ascending position. The default numpy
quicksort is deterministic but guarantees no tie order in general (it is stable
only on partitions short enough for its insertion-sort cutoff, which covers the
concrete counterexample arrays below); ordering claims about the program are
therefore proved for every sort kernel satisfying `ArgsortSpec` below, and this
stable instantiation is used only where tie order is irrelevant (lengths,
emptiness, membership) and for concrete small-array evaluations. -/
def lexLe (vals : List α) (i j : ℕ) : Prop :=
  simAt vals i < simAt vals j ∨ (simAt vals i = simAt vals j ∧ i ≤ j)

instance (vals : List α) : DecidableRel (lexLe vals) := fun i j => by
  unfold lexLe
  infer_instance

instance (vals : List α) : IsTotal ℕ (lexLe vals) := by
  constructor
  intro i j
  rcases lt_trichotomy (simAt vals i) (simAt vals j) with h | h | h
  · exact Or.inl (Or.inl h)
  · rcases le_total i j with hij | hij
    · exact Or.inl (Or.inr ⟨h, hij⟩)
    · exact Or.inr (Or.inr ⟨h.symm, hij⟩)
  · exact Or.inr (Or.inl h)

instance (vals : List α) : IsTrans ℕ (lexLe vals) := by
  constructor
  intro i j l hij hjl
  rcases hij with h1 | ⟨h1, h1b⟩
  · rcases hjl with h2 | ⟨h2, _⟩
    · exact Or.inl (h1.trans h2)
    · exact Or.inl (h2 ▸ h1)
  · rcases hjl with h2 | ⟨h2, h2b⟩
    · exact Or.inl (h1 ▸ h2)
    · exact Or.inr ⟨h1.trans h2, h1b.trans h2b⟩

/-- One concrete `np.argsort(vals)` kernel: positions `0 .. len-1` sorted
ascending by value with position tie-break (see the `lexLe` comment for its
relation to the real numpy sort). -/
def argsortAsc (vals : List α) : List ℕ :=
  List.insertionSort (lexLe vals) (List.range vals.length)

/-- Python/numpy slice `xs[-k:]` (for `k = 0` this is the whole list). -/
def lastK (xs : List ℕ) (k : ℕ) : List ℕ :=
  if k = 0 then xs else xs.drop (xs.length - k)

/-- Final reordering step shared by both retrieval routines:
`indices[np.argsort(similarities[indices])[::-1]]`. -/
def sortDescBySim (sims : List α) (indices : List ℕ) : List ℕ :=
  ((argsortAsc (indices.map (simAt sims))).reverse).map (fun p => indices.getD p 0)

/-- Indices above the threshold, `np.where(similarities > threshold)[0]`, in
ascending index order. -/
def aboveThreshold (sims : List α) (threshold : α) : List ℕ :=
  (List.range sims.length).filter (fun i => decide (threshold < simAt sims i))

/-- Model of `AGHRAGService._retrieve_relevant_chunks`
(`agh_rag_service.py` lines 217-227): take all indices above the threshold; if
none, fall back to the top `top_k` by similarity; sort descending. Note the
above-threshold branch is not truncated to `top_k`. -/
def retrieveAGH (sims : List α) (threshold : α) (topK : ℕ) : List ℕ :=
  sortDescBySim sims
    (if aboveThreshold sims threshold = [] then lastK (argsortAsc sims) topK
     else aboveThreshold sims threshold)

/-- Model of `AdvancedEmbeddingService.retrieve_relevant_chunks`
(`enhanced_embedding_service.py` lines 463-479): as above, but the
above-threshold branch keeps only the `top_k` best
(`above_threshold[np.argsort(threshold_similarities)[-top_k:]]`). -/
def retrieveEnhanced (sims : List α) (threshold : α) (topK : ℕ) : List ℕ :=
  sortDescBySim sims
    (if aboveThreshold sims threshold = [] then lastK (argsortAsc sims) topK
     else (lastK (argsortAsc ((aboveThreshold sims threshold).map (simAt sims))) topK).map
       (fun p => (aboveThreshold sims threshold).getD p 0))

theorem length_argsortAsc (vals : List α) :
    (argsortAsc vals).length = vals.length := by
  simp [argsortAsc]

theorem length_lastK (xs : List ℕ) (k : ℕ) (hk : 1 ≤ k) :
    (lastK xs k).length = min k xs.length := by
  unfold lastK
  rw [if_neg (by omega)]
  rw [List.length_drop]
  omega

theorem length_sortDescBySim (sims : List α) (indices : List ℕ) :
    (sortDescBySim sims indices).length = indices.length := by
  simp [sortDescBySim, length_argsortAsc]

theorem argsortAsc_pairwise (vals : List α) :
    List.Pairwise (lexLe vals) (argsortAsc vals) :=
  List.sorted_insertionSort (lexLe vals) (List.range vals.length)

theorem argsortAsc_perm (vals : List α) :
    (argsortAsc vals).Perm (List.range vals.length) :=
  List.perm_insertionSort _ _

/-- The numpy contract of `np.argsort(vals)`: the result is a permutation of
the positions `0 .. len-1`, sorted ascending by value. The relative order of
equal values is deterministic for a given input but otherwise unspecified by
the default quicksort, so it is deliberately left unconstrained here; program
properties about retrieval ordering are proved for every kernel satisfying
this contract. -/
def ArgsortSpec (vals : List α) (perm : List ℕ) : Prop :=
  perm.Perm (List.range vals.length) ∧
  List.Pairwise (fun i j => simAt vals i ≤ simAt vals j) perm

/-- The final reordering step `indices[np.argsort(similarities[indices])[::-1]]`
over an arbitrary argsort kernel `f`. -/
def sortDescBySimWith (f : List α → List ℕ) (sims : List α)
    (indices : List ℕ) : List ℕ :=
  ((f (indices.map (simAt sims))).reverse).map (fun p => indices.getD p 0)

/-- `AGHRAGService._retrieve_relevant_chunks` over an arbitrary argsort kernel
`f`; `retrieveAGH` is its instantiation at the concrete stable kernel. -/
def retrieveAGHWith (f : List α → List ℕ) (sims : List α) (threshold : α)
    (topK : ℕ) : List ℕ :=
  sortDescBySimWith f sims
    (if aboveThreshold sims threshold = [] then lastK (f sims) topK
     else aboveThreshold sims threshold)

/-- `AdvancedEmbeddingService.retrieve_relevant_chunks` over an arbitrary
argsort kernel `f`. -/
def retrieveEnhancedWith (f : List α → List ℕ) (sims : List α) (threshold : α)
    (topK : ℕ) : List ℕ :=
  sortDescBySimWith f sims
    (if aboveThreshold sims threshold = [] then lastK (f sims) topK
     else (lastK (f ((aboveThreshold sims threshold).map (simAt sims))) topK).map
       (fun p => (aboveThreshold sims threshold).getD p 0))

theorem retrieveAGHWith_argsortAsc (sims : List α) (th : α) (k : ℕ) :
    retrieveAGHWith argsortAsc sims th k = retrieveAGH sims th k := rfl

theorem retrieveEnhancedWith_argsortAsc (sims : List α) (th : α) (k : ℕ) :
    retrieveEnhancedWith argsortAsc sims th k = retrieveEnhanced sims th k := rfl

/-- The concrete stable kernel satisfies the numpy argsort contract. -/
theorem argsortAsc_spec (vals : List α) : ArgsortSpec vals (argsortAsc vals) := by
  constructor
  · exact argsortAsc_perm vals
  · refine List.Pairwise.imp ?_ (argsortAsc_pairwise vals)
    intro i j hij
    rcases hij with h | ⟨h, _⟩
    · exact le_of_lt h
    · exact le_of_eq h

/-- For every kernel satisfying the numpy argsort contract, the final
reordering step returns indices in descending similarity order, whatever the
kernel does with exact ties. -/
theorem sortDescBySimWith_pairwise (f : List α → List ℕ)
    (hf : ∀ vals : List α, ArgsortSpec vals (f vals))
    (sims : List α) (indices : List ℕ) :
    List.Pairwise (fun i j => simAt sims j ≤ simAt sims i)
      (sortDescBySimWith f sims indices) := by
  unfold sortDescBySimWith
  rw [List.pairwise_map, List.pairwise_reverse]
  obtain ⟨hperm, hsorted⟩ := hf (indices.map (simAt sims))
  have htvl : (indices.map (simAt sims)).length = indices.length :=
    List.length_map _ _
  have hmem : ∀ p ∈ f (indices.map (simAt sims)), p < indices.length := by
    intro p hp
    have := List.mem_range.mp (hperm.mem_iff.mp hp)
    omega
  refine List.Pairwise.imp_of_mem ?_ hsorted
  intro p q hp hq hle
  have hpl : p < indices.length := hmem p hp
  have hql : q < indices.length := hmem q hq
  have e1 : simAt (indices.map (simAt sims)) p = simAt sims (indices.getD p 0) := by
    simp only [simAt]
    rw [List.getD_eq_getElem _ default (htvl ▸ hpl), List.getD_eq_getElem indices 0 hpl]
    simp [simAt]
  have e2 : simAt (indices.map (simAt sims)) q = simAt sims (indices.getD q 0) := by
    simp only [simAt]
    rw [List.getD_eq_getElem _ default (htvl ▸ hql), List.getD_eq_getElem indices 0 hql]
    simp [simAt]
  rw [← e1, ← e2]
  exact hle

/-- C6 (amended): for every fixed store and query vector, both retrieval
results are ordered descending by similarity — proved for every argsort kernel
satisfying the numpy contract (`ArgsortSpec`), hence for the program no matter
how numpy orders exact ties; the retrieval is a pure function of the inputs and
the deterministic kernel, so repeated calls return the same ordered result; but
the tie-break is not insertion order — on a two-element exact tie, where the
numpy sort takes its stable insertion-sort path, the result is the reverse of
insertion order. -/
theorem retrieval_descending_order (f : List α → List ℕ)
    (hf : ∀ vals : List α, ArgsortSpec vals (f vals)) (sims : List α) (th : α)
    (k : ℕ) :
    List.Pairwise (fun i j => simAt sims j ≤ simAt sims i)
      (retrieveAGHWith f sims th k) ∧
    List.Pairwise (fun i j => simAt sims j ≤ simAt sims i)
      (retrieveEnhancedWith f sims th k) ∧
    retrieveAGHWith argsortAsc sims th k = retrieveAGH sims th k ∧
    retrieveEnhancedWith argsortAsc sims th k = retrieveEnhanced sims th k :=
  ⟨sortDescBySimWith_pairwise f hf sims _,
   sortDescBySimWith_pairwise f hf sims _, rfl, rfl⟩

/-- Witness for C6: the stable kernel satisfies the contract, and the concrete
store `[3, 1, 2]` comes back in descending similarity order from both
retrieval routines. -/
theorem retrieval_descending_order_witness :
    List.Pairwise
      (fun i j => simAt ([3, 1, 2] : List ℤ) j ≤ simAt ([3, 1, 2] : List ℤ) i)
      (retrieveAGHWith argsortAsc ([3, 1, 2] : List ℤ) 0 2) ∧
    List.Pairwise
      (fun i j => simAt ([3, 1, 2] : List ℤ) j ≤ simAt ([3, 1, 2] : List ℤ) i)
      (retrieveEnhancedWith argsortAsc ([3, 1, 2] : List ℤ) 0 2) :=
  ⟨(retrieval_descending_order argsortAsc (fun vals => argsortAsc_spec vals)
      ([3, 1, 2] : List ℤ) 0 2).1,
   (retrieval_descending_order argsortAsc (fun vals => argsortAsc_spec vals)
      ([3, 1, 2] : List ℤ) 0 2).2.1⟩

/-- Counterexample to C6 as stated: two documents with exactly equal
similarities come back in reverse insertion order `[1, 0]`, not the claimed
original insertion order `[0, 1]` (a two-element array, where the default
numpy sort takes its stable insertion-sort path, so the concrete kernel
matches the program exactly here). -/
theorem retrieval_tie_order_cex :
    retrieveAGH ([5, 5] : List ℤ) 0 3 = [1, 0] ∧
    retrieveAGH ([5, 5] : List ℤ) 0 3 ≠ [0, 1] := by
  decide

/-- C1 (amended): when no similarity exceeds the threshold both retrievals fall
back to the `top_k` highest-similarity indices, so the result is non-empty
whenever the store is non-empty; the enhanced retrieval returns at most `top_k`
candidates in all cases, while the AGH retrieval is bounded by `top_k` in the
fallback case (its above-threshold branch is not truncated). -/
theorem retrieval_fallback_bounds (sims : List α) (th : α) (k : ℕ) (hk : 1 ≤ k) :
    (sims ≠ [] → retrieveAGH sims th k ≠ [] ∧ retrieveEnhanced sims th k ≠ []) ∧
    (retrieveEnhanced sims th k).length ≤ k ∧
    (aboveThreshold sims th = [] → (retrieveAGH sims th k).length ≤ k) := by
  refine ⟨?_, ?_, ?_⟩
  · intro hne
    have hn : 1 ≤ sims.length := List.length_pos.mpr hne
    constructor
    · rw [retrieveAGH]
      apply List.ne_nil_of_length_pos
      rw [length_sortDescBySim]
      by_cases h : aboveThreshold sims th = []
      · rw [if_pos h, length_lastK _ _ hk, length_argsortAsc]
        omega
      · rw [if_neg h]
        have := List.length_pos.mpr h
        omega
    · rw [retrieveEnhanced]
      apply List.ne_nil_of_length_pos
      rw [length_sortDescBySim]
      by_cases h : aboveThreshold sims th = []
      · rw [if_pos h, length_lastK _ _ hk, length_argsortAsc]
        omega
      · rw [if_neg h]
        rw [List.length_map, length_lastK _ _ hk, length_argsortAsc, List.length_map]
        have := List.length_pos.mpr h
        omega
  · rw [retrieveEnhanced]
    rw [length_sortDescBySim]
    by_cases h : aboveThreshold sims th = []
    · rw [if_pos h, length_lastK _ _ hk, length_argsortAsc]
      omega
    · rw [if_neg h]
      rw [List.length_map, length_lastK _ _ hk, length_argsortAsc, List.length_map]
      omega
  · intro h
    rw [retrieveAGH, if_pos h, length_sortDescBySim, length_lastK _ _ hk,
      length_argsortAsc]
    omega

/-- Witness for C1 at concrete inputs: store `[2, 1]` with threshold `5` (nothing
above threshold) and `top_k = 1`. -/
theorem retrieval_fallback_bounds_witness :
    retrieveAGH ([2, 1] : List ℤ) 5 1 ≠ [] ∧
    retrieveEnhanced ([2, 1] : List ℤ) 5 1 ≠ [] ∧
    (retrieveEnhanced ([2, 1] : List ℤ) 5 1).length ≤ 1 ∧
    (retrieveAGH ([2, 1] : List ℤ) 5 1).length ≤ 1 := by
  have h := retrieval_fallback_bounds ([2, 1] : List ℤ) 5 1 (by decide)
  exact ⟨(h.1 (by decide)).1, (h.1 (by decide)).2, h.2.1, h.2.2 (by decide)⟩

/-- Counterexample to C1 as stated: with four documents all above the threshold
and `top_k = 3`, the AGH retrieval returns four candidates — more than `top_k`. -/
theorem retrieval_topk_exceeded_cex :
    (retrieveAGH ([1, 1, 1, 1] : List ℤ) 0 3).length = 4 ∧
    ¬ (retrieveAGH ([1, 1, 1, 1] : List ℤ) 0 3).length ≤ 3 := by
  decide

end Retrieval

/-! ### Confidence and trust scoring (C2) -/

/-- Important-terms vocabulary from `_calculate_trust_score`
(`agh_rag_service.py` line 333). -/
def importantTerms : List String :=
  ["examination", "semester", "faculty", "student", "regulation", "grade", "credit"]

/-- Python `round(x, 3)`, modelled as rounding to the nearest multiple of 1/1000
(Python rounds float ties half-to-even; ties at exact half-thousandths are the
only difference and do not affect any bound proved here). -/
def round3 (x : ℚ) : ℚ := ((round (x * 1000) : ℤ) : ℚ) / 1000

/-- Distinct non-stopword question words: `set(findall(question)) - stop_words`
(line 328). -/
def qContentWords (stopWords : List String) (question : String) : List String :=
  ((findallWords question).dedup).filter (fun w => !decide (w ∈ stopWords))

/-- Keyword-overlap factor of `_calculate_trust_score` (lines 328-330):
`len(q_words & a_words) / len(q_words)` when the question has content words,
else 0. -/
def trustKeywordOverlap (stopWords : List String) (question answer : String) : ℚ :=
  if qContentWords stopWords question ≠ [] then
    (((qContentWords stopWords question).filter
        (fun w => decide (w ∈ findallWords answer))).length : ℚ) /
      ((qContentWords stopWords question).length : ℚ)
  else 0

/-- Important terms present in a text (lines 334-335). -/
def impTerms (text : String) : List String :=
  ((findallWords text).dedup).filter (fun w => decide (w ∈ importantTerms))

/-- Important-term factor (line 336); defaults to 1/2 when the question contains
no important term. -/
def trustTermScore (question answer : String) : ℚ :=
  if impTerms question ≠ [] then
    (((impTerms question).filter (fun w => decide (w ∈ impTerms answer))).length : ℚ) /
      ((impTerms question).length : ℚ)
  else 1/2

/-- Content-overlap factor (lines 338-341): overlap of answer words with the
words of the joined source chunks. -/
def trustContentOverlap (answer : String) (chunks : List String) : ℚ :=
  if (findallWords answer).dedup ≠ [] then
    ((((findallWords answer).dedup).filter
        (fun w => decide (w ∈ findallWords (String.intercalate " " chunks)))).length : ℚ) /
      (((findallWords answer).dedup).length : ℚ)
  else 0

/-- Length/structure quality factor (line 344): `min(1.0, len(answer.split())/50)`. -/
def trustQualityScore (answer : String) : ℚ :=
  min 1 (((pySplit answer).length : ℚ) / 50)

/-- Model of `AGHRAGService._calculate_trust_score` (lines 323-358): the
weighted sum `0.3·keyword + 0.2·term + 0.3·content + 0.2·quality`, rounded to 3
decimals. The NLTK English stopword list is an external resource and is passed
as the `stopWords` parameter. There is no clamping to `[0.1, 0.95]`. -/
def calculateTrustScore (stopWords : List String) (question answer : String)
    (chunks : List String) : ℚ :=
  round3 (3/10 * trustKeywordOverlap stopWords question answer
    + 2/10 * trustTermScore question answer
    + 3/10 * trustContentOverlap answer chunks
    + 2/10 * trustQualityScore answer)

/-- Model of `AdvancedAtlasRAGEngine._estimate_confidence`
(`advanced_rag_engine.py` lines 787-813): early `0.1` for empty/short answers,
otherwise `0.4·queryAnswerOverlap + 0.3·answerContextOverlap + 0.3·lengthFactor`
clamped into `[0.1, 0.95]` by `min(0.95, max(0.1, ·))`. -/
def estimateConfidence (query answer context : String) : ℚ :=
  if answer = "" ∨ (pyStrip answer).length < 10 then 1/10
  else
    min (19/20) (max (1/10)
      (4/10 * (if (pySplit (pyLower query)).dedup ≠ [] then
          ((((pySplit (pyLower query)).dedup).filter
              (fun w => decide (w ∈ pySplit (pyLower answer)))).length : ℚ) /
            (((pySplit (pyLower query)).dedup).length : ℚ)
        else 0)
      + 3/10 * (if (pySplit (pyLower answer)).dedup ≠ [] then
          ((((pySplit (pyLower answer)).dedup).filter
              (fun w => decide (w ∈ pySplit (pyLower context)))).length : ℚ) /
            (((pySplit (pyLower answer)).dedup).length : ℚ)
        else 0)
      + 3/10 * min 1 (((pySplit answer).length : ℚ) / 50)))

/-- Helper: a filtered-count ratio over a non-empty list lies in `[0, 1]`. -/
theorem filter_length_ratio_bounds {l : List String} (p : String → Bool)
    (h : l ≠ []) :
    0 ≤ ((l.filter p).length : ℚ) / (l.length : ℚ) ∧
      ((l.filter p).length : ℚ) / (l.length : ℚ) ≤ 1 := by
  have hl : 0 < (l.length : ℚ) := by
    have := List.length_pos.mpr h
    exact_mod_cast this
  constructor
  · positivity
  · rw [div_le_one hl]
    exact_mod_cast List.length_filter_le p l

theorem trustKeywordOverlap_bounds (stopWords : List String) (question answer : String) :
    0 ≤ trustKeywordOverlap stopWords question answer ∧
      trustKeywordOverlap stopWords question answer ≤ 1 := by
  unfold trustKeywordOverlap
  split
  · exact filter_length_ratio_bounds _ (by assumption)
  · norm_num

theorem trustTermScore_bounds (question answer : String) :
    0 ≤ trustTermScore question answer ∧ trustTermScore question answer ≤ 1 := by
  unfold trustTermScore
  split
  · exact filter_length_ratio_bounds _ (by assumption)
  · norm_num

theorem trustContentOverlap_bounds (answer : String) (chunks : List String) :
    0 ≤ trustContentOverlap answer chunks ∧ trustContentOverlap answer chunks ≤ 1 := by
  unfold trustContentOverlap
  split
  · exact filter_length_ratio_bounds _ (by assumption)
  · norm_num

theorem trustQualityScore_bounds (answer : String) :
    0 ≤ trustQualityScore answer ∧ trustQualityScore answer ≤ 1 := by
  unfold trustQualityScore
  constructor
  · apply le_min (by norm_num)
    positivity
  · exact min_le_left _ _

theorem round3_nonneg {x : ℚ} (h0 : 0 ≤ x) : 0 ≤ round3 x := by
  unfold round3
  apply div_nonneg _ (by norm_num)
  have : (0 : ℤ) ≤ round (x * 1000) := by
    rw [round_eq]
    apply Int.floor_nonneg.mpr
    have : (0 : ℚ) ≤ x * 1000 := by positivity
    linarith
  exact_mod_cast this

theorem round3_le_one {x : ℚ} (h1 : x ≤ 1) : round3 x ≤ 1 := by
  unfold round3
  rw [div_le_one (by norm_num)]
  have : round (x * 1000) ≤ 1000 := by
    rw [round_eq]
    have hle : x * 1000 + 1 / 2 ≤ 1000 + 1 / 2 := by nlinarith
    calc ⌊x * 1000 + 1 / 2⌋ ≤ ⌊(1000 : ℚ) + 1 / 2⌋ := Int.floor_le_floor hle
      _ = 1000 := by norm_num
  exact_mod_cast this

theorem calculateTrustScore_bounds (stopWords : List String)
    (question answer : String) (chunks : List String) :
    0 ≤ calculateTrustScore stopWords question answer chunks ∧
      calculateTrustScore stopWords question answer chunks ≤ 1 := by
  obtain ⟨k0, k1⟩ := trustKeywordOverlap_bounds stopWords question answer
  obtain ⟨t0, t1⟩ := trustTermScore_bounds question answer
  obtain ⟨c0, c1⟩ := trustContentOverlap_bounds answer chunks
  obtain ⟨q0, q1⟩ := trustQualityScore_bounds answer
  unfold calculateTrustScore
  constructor
  · apply round3_nonneg
    linarith
  · apply round3_le_one
    linarith

theorem estimateConfidence_bounds (query answer context : String) :
    1/10 ≤ estimateConfidence query answer context ∧
      estimateConfidence query answer context ≤ 19/20 := by
  unfold estimateConfidence
  split
  · norm_num
  · constructor
    · exact le_min (by norm_num) (le_max_left _ _)
    · exact min_le_left _ _

/-- C2 (amended): the engine confidence estimator `_estimate_confidence` always
returns a value in `[0.1, 0.95]`; the AGH trust scorer `_calculate_trust_score`
returns a value in `[0, 1]` (a weighted sum of four factors each in `[0, 1]`)
but applies no `[0.1, 0.95]` clamp, so it can return exactly 0 or exactly 1. -/
theorem confidence_and_trust_bounds :
    (∀ query answer context, 1/10 ≤ estimateConfidence query answer context ∧
      estimateConfidence query answer context ≤ 19/20) ∧
    (∀ stopWords question answer chunks,
      0 ≤ calculateTrustScore stopWords question answer chunks ∧
      calculateTrustScore stopWords question answer chunks ≤ 1) :=
  ⟨fun q a c => estimateConfidence_bounds q a c,
   fun sw q a ch => calculateTrustScore_bounds sw q a ch⟩

/-- Counterexample to C2 as stated: the trust scorer returns exactly 0 (below
the claimed floor of 0.1) for the question "examination" with an empty answer
and no context chunks. -/
theorem trust_score_zero_cex :
    calculateTrustScore [] "examination" "" [] = 0 ∧
    ¬ (1/10 ≤ calculateTrustScore [] "examination" "" []) := by
  have e1 : trustKeywordOverlap [] "examination" "" = 0 := by
    unfold trustKeywordOverlap
    rw [if_pos (by decide)]
    have hn : ((qContentWords [] "examination").filter
        (fun w => decide (w ∈ findallWords ""))).length = 0 := by decide
    rw [hn]
    norm_num
  have e2 : trustTermScore "examination" "" = 0 := by
    unfold trustTermScore
    rw [if_pos (by decide)]
    have hn : ((impTerms "examination").filter
        (fun w => decide (w ∈ impTerms ""))).length = 0 := by decide
    rw [hn]
    norm_num
  have e3 : trustContentOverlap "" [] = 0 := by
    unfold trustContentOverlap
    rw [if_neg (by decide)]
  have e4 : trustQualityScore "" = 0 := by
    unfold trustQualityScore
    have hn : (pySplit "").length = 0 := by decide
    rw [hn]
    norm_num
  have hsum : calculateTrustScore [] "examination" "" [] = 0 := by
    unfold calculateTrustScore
    rw [e1, e2, e3, e4]
    norm_num [round3]
  exact ⟨hsum, by rw [hsum]; norm_num⟩

/-! ### fix_known_errors: the five regex substitutions (C10)

`AGHRAGService._fix_known_errors` (`agh_rag_service.py` lines 375-392) applies,
in order: `re.sub` of \b60/100\b to "50/100", of \b60 out of 100\b to
"50 out of 100", of "typically 60/100" to "typically 50/100", of
"generally 60/100" to "generally 50/100", and of "passing.*?60" to
"passing grade is 50" with the IGNORECASE flag.
Each is modelled as a left-to-right non-overlapping scanner over the character
list, with `\b` boundaries evaluated against the original string. -/

/-- Word-character state after scanning a chunk of text: `pw` if the chunk is
empty, otherwise whether its last character is a word character (regex `\b`
context). -/
def wEnd (pw : Bool) : List Char → Bool
  | [] => pw
  | c :: r => wEnd (wordChar c) r

/-- Boundary after a pattern ending in a word character: `\b` holds at end of
text or before a non-word character. -/
def nextOk : List Char → Bool
  | [] => true
  | c :: _ => !wordChar c

/-- The pattern `60/100` as characters. -/
def pat60slash : List Char := ['6', '0', '/', '1', '0', '0']

/-- Generic single-pattern `re.sub` scanner. `m pw s` returns `some e` when a
match of length `e + 1` starts at the current position (`pw` is the word-ness
of the preceding original character, for `\b`); on a match the scanner emits
`repl` and skips the matched characters, otherwise it copies one character.
The fuel starts at the input length; every step consumes at least one input
character. -/
def scanSubAux (m : Bool → List Char → Option ℕ) (repl : List Char) :
    ℕ → Bool → List Char → List Char
  | 0, _, _ => []
  | _ + 1, _, [] => []
  | fuel + 1, pw, c :: r =>
    match m pw (c :: r) with
    | some e =>
      repl ++ scanSubAux m repl fuel (wEnd pw ((c :: r).take (e + 1)))
        ((c :: r).drop (e + 1))
    | none => c :: scanSubAux m repl fuel (wordChar c) r

/-- Run a scanner over a whole string (at position 0 the `\b` left context
holds, i.e. `pw = false`). -/
def scanSub (m : Bool → List Char → Option ℕ) (repl : List Char)
    (s : List Char) : List Char :=
  scanSubAux m repl s.length false s

/-- Matcher for `\b60/100\b`. -/
def m60Slash (pw : Bool) (s : List Char) : Option ℕ :=
  if !pw && startsWithL s pat60slash && nextOk (s.drop 6) then some 5 else none

/-- Matcher for `\b60 out of 100\b` (13 characters). -/
def m60OutOf (pw : Bool) (s : List Char) : Option ℕ :=
  if !pw && startsWithL s "60 out of 100".data && nextOk (s.drop 13) then some 12
  else none

/-- Matcher for the plain pattern `typically 60/100` (16 characters). -/
def mTypically (_pw : Bool) (s : List Char) : Option ℕ :=
  if startsWithL s "typically 60/100".data then some 15 else none

/-- Matcher for the plain pattern `generally 60/100` (16 characters). -/
def mGenerally (_pw : Bool) (s : List Char) : Option ℕ :=
  if startsWithL s "generally 60/100".data then some 15 else none

/-- Case-insensitive prefix test (`re.IGNORECASE`, ASCII model). -/
def startsWithCI : List Char → List Char → Bool
  | _, [] => true
  | [], _ :: _ => false
  | c :: cs, p :: ps => (c.toLower == p.toLower) && startsWithCI cs ps

/-- Lazy search for the literal `60` for `passing.*?60`: the number of
characters matched by `.*?` (which cannot cross a newline). -/
def findSixty : List Char → Option ℕ
  | [] => none
  | c :: r =>
    if c == '6' && startsWithL r ['0'] then some 0
    else if c == '\n' then none
    else (findSixty r).map (· + 1)

/-- Matcher for `passing.*?60` with `re.IGNORECASE`: a case variant of
`passing` (7 characters), the fewest non-newline characters, then `60`; total
match length `7 + k + 2`. -/
def mPassing (_pw : Bool) (s : List Char) : Option ℕ :=
  if startsWithCI s "passing".data then
    (findSixty (s.drop 7)).map (fun k => 7 + k + 1)
  else none

/-- Model of `AGHRAGService._fix_known_errors` (lines 375-392): the five
substitutions applied in source order. -/
def fixKnownErrors (answer : String) : String :=
  ⟨scanSub mPassing
    ['p', 'a', 's', 's', 'i', 'n', 'g', ' ', 'g', 'r', 'a', 'd', 'e', ' ',
      'i', 's', ' ', '5', '0']
    (scanSub mGenerally
      ['g', 'e', 'n', 'e', 'r', 'a', 'l', 'l', 'y', ' ', '5', '0', '/', '1', '0', '0']
      (scanSub mTypically
        ['t', 'y', 'p', 'i', 'c', 'a', 'l', 'l', 'y', ' ', '5', '0', '/', '1', '0', '0']
        (scanSub m60OutOf
          ['5', '0', ' ', 'o', 'u', 't', ' ', 'o', 'f', ' ', '1', '0', '0']
          (scanSub m60Slash ['5', '0', '/', '1', '0', '0'] answer.data))))⟩

/-- Detector for a word-boundary-delimited occurrence of `60/100`: somewhere in
the text, `60/100` appears with no word character immediately before or after
(the condition under which the \b60/100\b substitution would fire). -/
def hasBOccAux (pw : Bool) : List Char → Bool
  | [] => false
  | c :: r =>
    (!pw && startsWithL (c :: r) pat60slash && nextOk ((c :: r).drop 6)) ||
      hasBOccAux (wordChar c) r

/-- Word-boundary-delimited occurrence of `60/100` in a string. -/
def hasBOcc (s : String) : Bool := hasBOccAux false s.data

theorem scanSubAux_nil (m : Bool → List Char → Option ℕ) (repl : List Char)
    (fuel : ℕ) (pw : Bool) : scanSubAux m repl fuel pw [] = [] := by
  cases fuel <;> simp [scanSubAux]

theorem wEnd_cons (pw : Bool) (c : Char) (r : List Char) :
    wEnd pw (c :: r) = wEnd (wordChar c) r := rfl

theorem wEnd_append (pw : Bool) (a b : List Char) :
    wEnd pw (a ++ b) = wEnd (wEnd pw a) b := by
  induction a generalizing pw with
  | nil => simp [wEnd]
  | cons c t ih => simp [wEnd, ih]

theorem startsWithL_take {s p : List Char} (h : startsWithL s p = true) :
    s.take p.length = p := by
  induction p generalizing s with
  | nil => simp
  | cons d ps ih =>
    cases s with
    | nil => simp [startsWithL] at h
    | cons c r =>
      simp only [startsWithL, Bool.and_eq_true, beq_iff_eq] at h
      obtain ⟨rfl, h2⟩ := h
      simp [List.take, ih h2]

theorem startsWithL_length {s p : List Char} (h : startsWithL s p = true) :
    p.length ≤ s.length := by
  induction p generalizing s with
  | nil => simp
  | cons d ps ih =>
    cases s with
    | nil => simp [startsWithL] at h
    | cons c r =>
      simp only [startsWithL, Bool.and_eq_true] at h
      have := ih h.2
      simp only [List.length_cons]
      omega

theorem startsWithCI_length {s p : List Char} (h : startsWithCI s p = true) :
    p.length ≤ s.length := by
  induction p generalizing s with
  | nil => simp
  | cons d ps ih =>
    cases s with
    | nil => simp [startsWithCI] at h
    | cons c r =>
      simp only [startsWithCI, Bool.and_eq_true] at h
      have := ih h.2
      simp only [List.length_cons]
      omega

theorem findSixty_spec {t : List Char} {k : ℕ} (h : findSixty t = some k) :
    startsWithL (t.drop k) ['6', '0'] = true ∧ k + 2 ≤ t.length := by
  induction t generalizing k with
  | nil => simp [findSixty] at h
  | cons c r ih =>
    rw [findSixty] at h
    by_cases h1 : (c == '6' && startsWithL r ['0']) = true
    · rw [if_pos h1] at h
      obtain rfl : k = 0 := (Option.some_inj.mp h).symm
      simp only [Bool.and_eq_true, beq_iff_eq] at h1
      obtain ⟨rfl, h2⟩ := h1
      constructor
      · simp [startsWithL, h2]
      · have h3 : 1 ≤ r.length := by simpa using startsWithL_length h2
        simp only [List.length_cons]
        omega
    · rw [if_neg h1] at h
      by_cases h2 : (c == '\n') = true
      · rw [if_pos h2] at h
        cases h
      · rw [if_neg h2] at h
        cases hk : findSixty r with
        | none => rw [hk] at h; cases h
        | some k0 =>
          rw [hk] at h
          simp only [Option.map] at h
          obtain rfl : k = k0 + 1 := (Option.some_inj.mp h).symm
          obtain ⟨ha, hb⟩ := ih hk
          constructor
          · simpa using ha
          · simp only [List.length_cons]
            omega

theorem hasBOccAux_append_false {a b : List Char} {pw : Bool}
    (h : hasBOccAux pw (a ++ b) = false) :
    hasBOccAux (wEnd pw a) b = false := by
  induction a generalizing pw with
  | nil => simpa [wEnd] using h
  | cons c t ih =>
    simp only [List.cons_append, hasBOccAux, Bool.or_eq_false_iff] at h
    rw [wEnd_cons]
    exact ih h.2

theorem hasBOccAux_prepend_no6 {a : List Char} (h6 : '6' ∉ a) (pw : Bool)
    (b : List Char) :
    hasBOccAux pw (a ++ b) = hasBOccAux (wEnd pw a) b := by
  induction a generalizing pw with
  | nil => simp [wEnd]
  | cons c t ih =>
    have hc : c ≠ '6' := fun hcc => h6 (hcc ▸ List.mem_cons_self c t)
    have h6t : '6' ∉ t := fun ht => h6 (List.mem_cons_of_mem c ht)
    simp only [List.cons_append, hasBOccAux]
    have hbeq : (c == '6') = false := beq_eq_false_iff_ne.mpr hc
    simp only [pat60slash, startsWithL, hbeq, Bool.false_and, Bool.and_false,
      Bool.false_or]
    rw [wEnd_cons]
    exact ih h6t (wordChar c)

/-- Walk lemma: a prefix pattern that avoids the replacement head character is
preserved backwards by the scanner, together with the `\b` boundary after it.
This transfers a potential bounded occurrence in the scanner output back to the
scanner input. -/
theorem scanSub_walk (m : Bool → List Char → Option ℕ) (rh : Char)
    (rt : List Char) (hw : wordChar rh = true) :
    ∀ (p : List Char), (∀ d ∈ p, d ≠ rh) →
    ∀ (fuel : ℕ) (pw : Bool) (s : List Char), s.length ≤ fuel →
      (startsWithL (scanSubAux m (rh :: rt) fuel pw s) p = true →
        startsWithL s p = true) ∧
      (startsWithL (scanSubAux m (rh :: rt) fuel pw s) p = true →
        nextOk ((scanSubAux m (rh :: rt) fuel pw s).drop p.length) = true →
        nextOk (s.drop p.length) = true) := by
  intro p
  induction p with
  | nil =>
    intro _ fuel pw s hfuel
    constructor
    · intro _
      cases s <;> simp [startsWithL]
    · intro _ h2
      cases s with
      | nil => simp [nextOk]
      | cons c r =>
        cases fuel with
        | zero => simp at hfuel
        | succ f =>
          cases hm : m pw (c :: r) with
          | some e =>
            simp only [scanSubAux, hm, List.length_nil, List.drop_zero,
              List.cons_append, nextOk, hw] at h2
            simp at h2
          | none =>
            simp only [scanSubAux, hm, List.length_nil, List.drop_zero,
              nextOk] at h2
            simpa [nextOk] using h2
  | cons d ps ih =>
    intro hno fuel pw s hfuel
    have hd : d ≠ rh := hno d (List.mem_cons_self d ps)
    have hnops : ∀ x ∈ ps, x ≠ rh := fun x hx => hno x (List.mem_cons_of_mem d hx)
    cases s with
    | nil =>
      rw [scanSubAux_nil]
      constructor <;> intro h1 <;> simp [startsWithL] at h1
    | cons c r =>
      cases fuel with
      | zero => simp at hfuel
      | succ f =>
        have hlen : r.length ≤ f := by
          simp only [List.length_cons] at hfuel
          omega
        cases hm : m pw (c :: r) with
        | some e =>
          constructor <;>
            (intro h1
             simp only [scanSubAux, hm, List.cons_append, startsWithL,
               Bool.and_eq_true, beq_iff_eq] at h1
             exact absurd h1.1 (fun hh => hd hh.symm))
        | none =>
          obtain ⟨ihA, ihB⟩ := ih hnops f (wordChar c) r hlen
          constructor
          · intro h1
            simp only [scanSubAux, hm] at h1
            simp only [startsWithL, Bool.and_eq_true] at h1 ⊢
            exact ⟨h1.1, ihA h1.2⟩
          · intro h1 h2
            simp only [scanSubAux, hm] at h1 h2
            simp only [startsWithL, Bool.and_eq_true] at h1
            simp only [List.length_cons, List.drop_succ_cons] at h2 ⊢
            exact ihB h1.2 h2

theorem m60Slash_spec {pw : Bool} {s : List Char} {e : ℕ}
    (h : m60Slash pw s = some e) :
    e = 5 ∧ pw = false ∧ startsWithL s pat60slash = true ∧
      nextOk (s.drop 6) = true := by
  unfold m60Slash at h
  by_cases hc : (!pw && startsWithL s pat60slash && nextOk (s.drop 6)) = true
  · rw [if_pos hc] at h
    simp only [Bool.and_eq_true, Bool.not_eq_true'] at hc
    exact ⟨(Option.some_inj.mp h).symm, hc.1.1, hc.1.2, hc.2⟩
  · rw [if_neg hc] at h
    cases h

theorem m60Slash_complete {pw : Bool} {s : List Char} (h1 : pw = false)
    (h2 : startsWithL s pat60slash = true) (h3 : nextOk (s.drop 6) = true) :
    m60Slash pw s = some 5 := by
  subst h1
  unfold m60Slash
  rw [if_pos]
  simp [h2, h3]

/-- Strong lemma for the first substitution: the output of
the \b60/100\b to "50/100" substitution contains no word-boundary-delimited
occurrence of `60/100`. -/
theorem scanSub_m60Slash_strong :
    ∀ (fuel : ℕ) (pw : Bool) (s : List Char), s.length ≤ fuel →
      hasBOccAux pw (scanSubAux m60Slash ['5', '0', '/', '1', '0', '0'] fuel pw s)
        = false := by
  intro fuel
  induction fuel with
  | zero =>
    intro pw s _
    simp [scanSubAux, hasBOccAux]
  | succ f ihf =>
    intro pw s hfuel
    cases s with
    | nil => simp [scanSubAux, hasBOccAux]
    | cons c r =>
      have hlenr : r.length ≤ f := by
        simp only [List.length_cons] at hfuel
        omega
      cases hm : m60Slash pw (c :: r) with
      | some e =>
        obtain ⟨rfl, hpwf, hst, hnx⟩ := m60Slash_spec hm
        simp only [scanSubAux, hm]
        rw [hasBOccAux_prepend_no6
          (show ('6' : Char) ∉ ['5', '0', '/', '1', '0', '0'] by decide) pw]
        have htk6 : (c :: r).take (5 + 1) = pat60slash := by
          have := startsWithL_take hst
          simpa [pat60slash] using this
        rw [htk6]
        have hw1 : wEnd pw ['5', '0', '/', '1', '0', '0'] = true := by
          cases pw <;> decide
        have hw2 : wEnd pw pat60slash = true := by
          cases pw <;> decide
        rw [hw1, hw2]
        apply ihf true
        rw [List.length_drop]
        simp only [List.length_cons] at hfuel ⊢
        omega
      | none =>
        simp only [scanSubAux, hm]
        simp only [hasBOccAux, Bool.or_eq_false_iff]
        refine ⟨?_, ihf (wordChar c) r hlenr⟩
        cases hpw : pw with
        | true => simp
        | false =>
          by_cases hc : c = '6'
          · subst hc
            simp only [Bool.not_false, Bool.true_and]
            rw [show pat60slash = '6' :: ['0', '/', '1', '0', '0'] from rfl]
            simp only [startsWithL, beq_self_eq_true, Bool.true_and]
            rw [List.drop_succ_cons]
            by_cases hA : startsWithL
                (scanSubAux m60Slash ['5', '0', '/', '1', '0', '0'] f (wordChar '6') r)
                ['0', '/', '1', '0', '0'] = true
            · by_cases hB : nextOk
                  ((scanSubAux m60Slash ['5', '0', '/', '1', '0', '0'] f
                    (wordChar '6') r).drop 5) = true
              · exfalso
                obtain ⟨wA, wB⟩ := scanSub_walk m60Slash '5' ['0', '/', '1', '0', '0']
                  (by decide) ['0', '/', '1', '0', '0']
                  (by intro d hd
                      simp only [List.mem_cons, List.not_mem_nil, or_false] at hd
                      rcases hd with rfl | rfl | rfl | rfl | rfl <;> decide)
                  f (wordChar '6') r hlenr
                have hrA : startsWithL r ['0', '/', '1', '0', '0'] = true := wA hA
                have hrB : nextOk (r.drop 5) = true := by
                  have := wB hA (by simpa using hB)
                  simpa using this
                have hcomp : m60Slash false ('6' :: r) = some 5 := by
                  apply m60Slash_complete rfl
                  · rw [show pat60slash = '6' :: ['0', '/', '1', '0', '0'] from rfl]
                    simp [startsWithL, hrA]
                  · rw [List.drop_succ_cons]
                    exact hrB
                rw [hpw, hcomp] at hm
                cases hm
              · have hBf : nextOk
                    ((scanSubAux m60Slash ['5', '0', '/', '1', '0', '0'] f
                      (wordChar '6') r).drop 5) = false := by
                  revert hB
                  cases nextOk ((scanSubAux m60Slash ['5', '0', '/', '1', '0', '0'] f
                    (wordChar '6') r).drop 5) <;> simp
                rw [hBf]
                simp
            · have hAf : startsWithL
                  (scanSubAux m60Slash ['5', '0', '/', '1', '0', '0'] f (wordChar '6') r)
                  ['0', '/', '1', '0', '0'] = false := by
                revert hA
                cases startsWithL (scanSubAux m60Slash ['5', '0', '/', '1', '0', '0'] f
                  (wordChar '6') r) ['0', '/', '1', '0', '0'] <;> simp
              rw [hAf]
              simp
          · rw [show pat60slash = '6' :: ['0', '/', '1', '0', '0'] from rfl]
            simp only [startsWithL]
            rw [beq_eq_false_iff_ne.mpr hc]
            simp

/-- Generic preservation: a substitution whose replacement starts with a word
character other than `0`, `/`, `1`, contains no `6`, ends in a word character,
and whose matches end in a word character, cannot create a new
word-boundary-delimited occurrence of `60/100`. -/
theorem scanSubAux_preserves_no_bocc (m : Bool → List Char → Option ℕ)
    (rh : Char) (rt : List Char)
    (hw : wordChar rh = true) (h0 : rh ≠ '0') (hsl : rh ≠ '/') (h1 : rh ≠ '1')
    (h6 : '6' ∉ rh :: rt)
    (hend : ∀ pw, wEnd pw (rh :: rt) = true)
    (hmEnd : ∀ pw s e, m pw s = some e → wEnd pw (s.take (e + 1)) = true) :
    ∀ (fuel : ℕ) (pw : Bool) (s : List Char), s.length ≤ fuel →
      hasBOccAux pw s = false →
      hasBOccAux pw (scanSubAux m (rh :: rt) fuel pw s) = false := by
  intro fuel
  induction fuel with
  | zero =>
    intro pw s _ _
    simp [scanSubAux, hasBOccAux]
  | succ f ihf =>
    intro pw s hfuel hin
    cases s with
    | nil => simp [scanSubAux, hasBOccAux]
    | cons c r =>
      have hlenr : r.length ≤ f := by
        simp only [List.length_cons] at hfuel
        omega
      have hin2 := hin
      simp only [hasBOccAux, Bool.or_eq_false_iff] at hin2
      obtain ⟨hfirstIn, htailIn⟩ := hin2
      cases hm : m pw (c :: r) with
      | some e =>
        have hpw' : wEnd pw ((c :: r).take (e + 1)) = true := hmEnd pw (c :: r) e hm
        have hinSuf : hasBOccAux true ((c :: r).drop (e + 1)) = false := by
          have happ := hasBOccAux_append_false (a := (c :: r).take (e + 1))
            (b := (c :: r).drop (e + 1))
            (by rw [List.take_append_drop]; exact hin)
          rwa [hpw'] at happ
        simp only [scanSubAux, hm]
        rw [hasBOccAux_prepend_no6 h6 pw]
        rw [hend pw, hpw']
        apply ihf true _ _ hinSuf
        rw [List.length_drop]
        simp only [List.length_cons] at hfuel ⊢
        omega
      | none =>
        simp only [scanSubAux, hm]
        simp only [hasBOccAux, Bool.or_eq_false_iff]
        refine ⟨?_, ihf (wordChar c) r hlenr htailIn⟩
        cases hpw : pw with
        | true => simp
        | false =>
          by_cases hc : c = '6'
          · subst hc
            simp only [Bool.not_false, Bool.true_and]
            rw [show pat60slash = '6' :: ['0', '/', '1', '0', '0'] from rfl]
            simp only [startsWithL, beq_self_eq_true, Bool.true_and]
            rw [List.drop_succ_cons]
            by_cases hA : startsWithL
                (scanSubAux m (rh :: rt) f (wordChar '6') r)
                ['0', '/', '1', '0', '0'] = true
            · by_cases hB : nextOk
                  ((scanSubAux m (rh :: rt) f (wordChar '6') r).drop 5) = true
              · exfalso
                obtain ⟨wA, wB⟩ := scanSub_walk m rh rt hw
                  ['0', '/', '1', '0', '0']
                  (by intro d hd
                      simp only [List.mem_cons, List.not_mem_nil, or_false] at hd
                      rcases hd with rfl | rfl | rfl | rfl | rfl
                      · exact fun hh => h0 hh.symm
                      · exact fun hh => hsl hh.symm
                      · exact fun hh => h1 hh.symm
                      · exact fun hh => h0 hh.symm
                      · exact fun hh => h0 hh.symm)
                  f (wordChar '6') r hlenr
                have hrA : startsWithL r ['0', '/', '1', '0', '0'] = true := wA hA
                have hrB : nextOk (r.drop 5) = true := by
                  have := wB hA (by simpa using hB)
                  simpa using this
                rw [hpw] at hfirstIn
                simp only [Bool.not_false, Bool.true_and] at hfirstIn
                rw [show pat60slash = '6' :: ['0', '/', '1', '0', '0'] from rfl]
                  at hfirstIn
                simp only [startsWithL, beq_self_eq_true, Bool.true_and] at hfirstIn
                rw [List.drop_succ_cons] at hfirstIn
                rw [hrA, hrB] at hfirstIn
                simp at hfirstIn
              · have hBf : nextOk
                    ((scanSubAux m (rh :: rt) f (wordChar '6') r).drop 5) = false := by
                  revert hB
                  cases nextOk ((scanSubAux m (rh :: rt) f (wordChar '6') r).drop 5) <;>
                    simp
                rw [hBf]
                simp
            · have hAf : startsWithL
                  (scanSubAux m (rh :: rt) f (wordChar '6') r)
                  ['0', '/', '1', '0', '0'] = false := by
                revert hA
                cases startsWithL (scanSubAux m (rh :: rt) f (wordChar '6') r)
                  ['0', '/', '1', '0', '0'] <;> simp
              rw [hAf]
              simp
          · rw [show pat60slash = '6' :: ['0', '/', '1', '0', '0'] from rfl]
            simp only [startsWithL]
            rw [beq_eq_false_iff_ne.mpr hc]
            simp

theorem m60OutOf_wEnd : ∀ (pw : Bool) (s : List Char) (e : ℕ),
    m60OutOf pw s = some e → wEnd pw (s.take (e + 1)) = true := by
  intro pw s e h
  unfold m60OutOf at h
  by_cases hc : (!pw && startsWithL s "60 out of 100".data &&
      nextOk (s.drop 13)) = true
  · rw [if_pos hc] at h
    obtain rfl : e = 12 := (Option.some_inj.mp h).symm
    simp only [Bool.and_eq_true] at hc
    have htk := startsWithL_take hc.1.2
    rw [show ("60 out of 100".data).length = 12 + 1 from by decide] at htk
    rw [htk]
    cases pw <;> decide
  · rw [if_neg hc] at h
    cases h

theorem mTypically_wEnd : ∀ (pw : Bool) (s : List Char) (e : ℕ),
    mTypically pw s = some e → wEnd pw (s.take (e + 1)) = true := by
  intro pw s e h
  unfold mTypically at h
  by_cases hc : startsWithL s "typically 60/100".data = true
  · rw [if_pos hc] at h
    obtain rfl : e = 15 := (Option.some_inj.mp h).symm
    have htk := startsWithL_take hc
    rw [show ("typically 60/100".data).length = 15 + 1 from by decide] at htk
    rw [htk]
    cases pw <;> decide
  · rw [if_neg hc] at h
    cases h

theorem mGenerally_wEnd : ∀ (pw : Bool) (s : List Char) (e : ℕ),
    mGenerally pw s = some e → wEnd pw (s.take (e + 1)) = true := by
  intro pw s e h
  unfold mGenerally at h
  by_cases hc : startsWithL s "generally 60/100".data = true
  · rw [if_pos hc] at h
    obtain rfl : e = 15 := (Option.some_inj.mp h).symm
    have htk := startsWithL_take hc
    rw [show ("generally 60/100".data).length = 15 + 1 from by decide] at htk
    rw [htk]
    cases pw <;> decide
  · rw [if_neg hc] at h
    cases h

theorem mPassing_wEnd : ∀ (pw : Bool) (s : List Char) (e : ℕ),
    mPassing pw s = some e → wEnd pw (s.take (e + 1)) = true := by
  intro pw s e h
  unfold mPassing at h
  by_cases hci : startsWithCI s "passing".data = true
  · rw [if_pos hci] at h
    cases hk : findSixty (s.drop 7) with
    | none => rw [hk] at h; cases h
    | some k =>
      rw [hk] at h
      simp only [Option.map] at h
      obtain rfl : e = 7 + k + 1 := (Option.some_inj.mp h).symm
      obtain ⟨hst, hlen⟩ := findSixty_spec hk
      have hdd : (s.drop 7).drop k = s.drop (7 + k) := by
        rw [List.drop_drop, Nat.add_comm]
      have htake2 : (s.drop (7 + k)).take 2 = ['6', '0'] := by
        rw [← hdd]
        have := startsWithL_take hst
        simpa using this
      have hsplit : s.take (7 + k + 1 + 1)
          = s.take (7 + k) ++ (s.drop (7 + k)).take 2 := by
        rw [show (7 + k + 1 + 1) = (7 + k) + 2 from rfl, List.take_add]
      rw [hsplit, wEnd_append, htake2]
      generalize wEnd pw (s.take (7 + k)) = b
      cases b <;> decide
  · rw [if_neg hci] at h
    cases h

/-- After `_fix_known_errors`, the answer contains no word-boundary-delimited
occurrence of `60/100`: the first substitution removes them all, and the four
later substitutions cannot create one. -/
theorem fixKnownErrors_no_bocc (s : String) :
    hasBOcc (fixKnownErrors s) = false := by
  unfold hasBOcc fixKnownErrors scanSub
  refine scanSubAux_preserves_no_bocc mPassing 'p' _ (by decide) (by decide)
    (by decide) (by decide) (by decide) (fun pw => by cases pw <;> decide)
    mPassing_wEnd _ false _ le_rfl ?_
  refine scanSubAux_preserves_no_bocc mGenerally 'g' _ (by decide) (by decide)
    (by decide) (by decide) (by decide) (fun pw => by cases pw <;> decide)
    mGenerally_wEnd _ false _ le_rfl ?_
  refine scanSubAux_preserves_no_bocc mTypically 't' _ (by decide) (by decide)
    (by decide) (by decide) (by decide) (fun pw => by cases pw <;> decide)
    mTypically_wEnd _ false _ le_rfl ?_
  refine scanSubAux_preserves_no_bocc m60OutOf '5' _ (by decide) (by decide)
    (by decide) (by decide) (by decide) (fun pw => by cases pw <;> decide)
    m60OutOf_wEnd _ false _ le_rfl ?_
  exact scanSub_m60Slash_strong _ false _ le_rfl

/-! ### The answer_question orchestrator (C3, C7, C9, C10)

`AGHRAGService.answer_question` (`agh_rag_service.py` lines 394-666) is modelled
as a pure function of the request plus an oracle record carrying the outcomes of
the external calls (document table, Ollama embedding and generation, web
search). The retrieval index list is also an oracle input here: the pure
index-selection stage is modelled separately above (`retrieveAGH`), while the
similarity computation itself is real-valued (`cosSimAGH`). Fields of
`AGHResponse` that no claim mentions (`sources`, `section_refs`, `language`,
`tokens`, `processing_time`) are omitted from the response model; the
`user_profile` parameter is modelled as absent (`None`), which makes the
prompt user context empty. -/

/-- Python `str.replace(pat, repl)` on character lists: left-to-right,
non-overlapping, replace all (empty patterns are not used by the code and are
mapped to the identity). -/
def pyReplaceL (s pat repl : List Char) : List Char :=
  scanSub
    (fun _ t =>
      if pat.isEmpty then none
      else if startsWithL t pat then some (pat.length - 1) else none)
    repl s

/-- Python `str.replace` on strings. -/
def pyReplace (s pat repl : String) : String := ⟨pyReplaceL s.data pat.data repl.data⟩

/-- Web search keywords (line 407). -/
def webSearchKeywords : List String :=
  ["search", "google", "web search", "search on google", "search web"]

/-- Keyword detection (lines 406-408): some keyword is a substring of
`question.lower().strip()`. -/
def hasSearchKeyword (question : String) : Bool :=
  webSearchKeywords.any (fun k => strContains (pyStrip (pyLower question)) k)

/-- Keyword cleanup (lines 413-415): `question.replace(keyword, "").strip()`
folded over the keyword list in order. The replacement is case-sensitive while
the detection is on the lowercased text. -/
def cleanQuestion (question : String) : String :=
  webSearchKeywords.foldl (fun q k => pyStrip (pyReplace q k "")) question

/-- Preprocessing stage of `answer_question` (lines 405-418): a detected search
keyword force-enables web search and rewrites the question; otherwise both are
passed through. -/
def preprocessQuestion (question : String) (enableWebSearch : Bool) :
    String × Bool :=
  if hasSearchKeyword question then (cleanQuestion question, true)
  else (question, enableWebSearch)

/-- The modelled fields of `AGHResponse`. -/
structure AGHResponseM where
  answer : String
  trust_score : ℚ
  warning : Option String
  sources_type : String
deriving DecidableEq

/-- External calls made during a run, in order. -/
inductive AGHEvent
  | embedQuery (q : String)
  | retrieveChunks
  | webSearch (q : String)
  | generate
deriving DecidableEq

/-- Terminal branch taken by `answer_question`. -/
inductive AGHBranch
  | notInitialized
  | cannotProcess
  | webAnswer
  | webFallbackAnswer
  | noAnswer
  | notRelated
  | documentAnswer
deriving DecidableEq

/-- A run of the orchestrator: the response, the branch taken, and the external
calls made. -/
structure AGHRun where
  resp : AGHResponseM
  branch : AGHBranch
  events : List AGHEvent

/-- Oracle outcomes of the external collaborators during one request. `web1` is
the result of the first `search_and_extract` call (line 461), `web2` of the
second (line 517): `none` models an exception, `some []` an empty result list;
`genWeb1`, `genWeb2`, `genMain` and `genRelevance` are the texts produced by the
`_generate_answer` calls at lines 488, 543, 590 and 627. -/
structure AGHOracles where
  dfLoaded : Bool
  rows : List (String × String)
  embed : String → Option (List ℚ)
  indices : List ℕ
  web1 : Option (List String)
  web2 : Option (List String)
  genWeb1 : String
  genWeb2 : String
  genMain : String
  genRelevance : String
  stopWords : List String

/-- The AGH-focused web query (lines 460 and 516). -/
def aghWebQuery (question : String) : String :=
  "AGH University of Science and Technology Krakow regulations " ++ question

def notInitializedAnswer : String := "AGH RAG service is not properly initialized."

def initFailWarning : String := "Service initialization error"

def cannotProcessAnswer : String := "Sorry, I couldn\x27t process your question."

def embedFailWarning : String := "Embedding generation failed"

def webFooter1 : String :=
  "\n\n🌐 *This answer is based on web search for AGH University regulations.*"

def webFooter2 : String :=
  "\n\n🌐 *This answer is based on web search for AGH University regulations since no relevant documents were found in our database.*"

def webFallbackWarning : String :=
  "Answer based on web search for AGH regulations - not from internal documents"

def noAnswerText : String :=
  "No relevant AGH regulations found for your question. To search the web for AGH University information, try enabling web search or adding \x27search\x27 to your question."

def noAnswerWarning : String :=
  "No relevant AGH documents found - enable web search to search online"

def lowQualityWarning : String := "Warning: This answer may be incomplete or off-topic."

def noCitationWarning : String :=
  "Warning: This answer contains no cited regulation sections."

def notRelatedAnswer : String := "This question is not related to AGH regulations."

/-- Generic hedge phrases of `_is_low_quality_answer` (line 369). -/
def genericPhrases : List String :=
  ["i don\x27t know", "unclear", "cannot determine", "not specified"]

/-- Model of `_is_low_quality_answer` (lines 360-373). -/
def isLowQualityAnswer (question answer : String) : Bool :=
  answer == "" || decide ((pySplit answer).length ≤ 2) ||
    strContains (pyLower answer) (pyLower question) ||
    genericPhrases.any (fun p => strContains (pyLower answer) p)

/-- The literal prompt template of `_build_prompt` (lines 251-275), with the
question interpolated at the front and an empty user context. -/
def promptGuidelines : String :=
  "\n\nPlease answer based on the following AGH University regulations. Follow these guidelines:\n\n📋 RESPONSE FORMAT:\n- Keep your answer CONCISE and FOCUSED (2-3 paragraphs maximum)\n- Extract only the ESSENTIAL information that directly answers the question\n- Include section references (e.g., §19) when citing specific rules\n- Use bullet points for lists to improve readability\n- Avoid lengthy explanations unless specifically requested\n\n🎯 ANSWER STYLE:\n- Be direct and to-the-point\n- Prioritize the most important information first\n- If there\x27s a lot of detail, summarize the key points\n- Use clear, simple language\n- CRITICAL: Distinguish between different concepts:\n  * \"Passing grade\" = minimum score to pass an exam (typically 60/100)\n  * \"ECTS credits\" = credit accumulation for graduation\n  * \"Graduation requirements\" = total credits needed to graduate\n  * \"Thesis requirements\" = specific requirements for thesis/dissertation\n- Match your answer EXACTLY to what was asked - don\x27t mix up grades with credits!\n\nREGULATIONS:\n"

/-- Base prompt before any chunk is appended (`user_context` empty under a
`None` user profile). -/
def basePrompt (question : String) : String :=
  "QUESTION: " ++ question ++ promptGuidelines

/-- Token estimate of `_build_prompt` (lines 235-236):
`int(len(text.split()) * 1.3)`. -/
def estimateTokens (t : String) : ℕ := ((pySplit t).length * 13) / 10

/-- The chunk-accumulation loop of `_build_prompt` (lines 277-289): append
`chunk ++ "\n\n"` while the token estimate stays at most 7000, stopping at the
first overflow. Entries are `(chunk, (title, content))`. -/
def buildPromptAux (prompt : String) :
    List (String × String × String) → String × List (String × String × String)
  | [] => (prompt, [])
  | (chunk, meta) :: rest =>
    if estimateTokens (prompt ++ chunk ++ "\n\n") > 7000 then (prompt, [])
    else
      let res := buildPromptAux (prompt ++ chunk ++ "\n\n") rest
      (res.1, (chunk, meta) :: res.2)

/-- Chunk/metadata assembly from the retrieved indices (lines 572-586): chunk
text `[Title]\nContent` with `(Title, Content)` metadata. -/
def chunksOf (rows : List (String × String)) (indices : List ℕ) :
    List (String × String × String) :=
  indices.map (fun i =>
    ("[" ++ (rows.getD i ("", "")).1 ++ "]\n" ++ (rows.getD i ("", "")).2,
      (rows.getD i ("", "")).1, (rows.getD i ("", "")).2))

/-- Document-grounded branch of `answer_question` (lines 572-652): prompt
building with the token budget, `_fix_known_errors` on the generated answer,
trust scoring, warning selection, and the relevance rejection (unreachable
here, since it requires an empty index list). In the relevance condition the
source order `trust_score < 0.3 and not indices` is stated indices-first; the
conjunction is logically identical and lets concrete runs normalise without
evaluating the dead trust comparison. -/
def documentRun (o : AGHOracles) (question : String) (ev : List AGHEvent) :
    AGHRun :=
  let built := buildPromptAux (basePrompt question) (chunksOf o.rows o.indices)
  let usedMeta := built.2.map (fun cm => cm.2)
  let answer := fixKnownErrors o.genMain
  let trust := calculateTrustScore o.stopWords question answer
    (usedMeta.map (fun m => m.2))
  let warning :=
    if isLowQualityAnswer question answer || decide (trust < 13/20) then
      some lowQualityWarning
    else if usedMeta = [] then some noCitationWarning
    else none
  if o.indices = [] ∧ trust < 3/10 then
    if strContains (pyLower o.genRelevance) "no" then
      ⟨⟨notRelatedAnswer, 0, none, "document"⟩, .notRelated,
        ev ++ [.generate, .generate]⟩
    else
      ⟨⟨answer, trust, warning, "document"⟩, .documentAnswer,
        ev ++ [.generate, .generate]⟩
  else
    ⟨⟨answer, trust, warning, "document"⟩, .documentAnswer, ev ++ [.generate]⟩

/-- Tail of `answer_question` after the explicit web-search attempt (lines
507-652): the no-documents path with its second web attempt (succeeding →
web-fallback answer, failing → no-answer), and the document-grounded path.
`ev` is the event prefix accumulated so far. -/
def answerTail (o : AGHOracles) (question : String) (enableWeb : Bool)
    (ev : List AGHEvent) : AGHRun :=
  if o.indices = [] then
    if enableWeb then
      match o.web2 with
      | some (_ :: _) =>
        ⟨⟨o.genWeb2 ++ webFooter2, 6/10, some webFallbackWarning, "web"⟩,
          .webFallbackAnswer, ev ++ [.webSearch (aghWebQuery question), .generate]⟩
      | _ =>
        ⟨⟨noAnswerText, 0, some noAnswerWarning, "document"⟩, .noAnswer,
          ev ++ [.webSearch (aghWebQuery question)]⟩
    else
      ⟨⟨noAnswerText, 0, some noAnswerWarning, "document"⟩, .noAnswer, ev⟩
  else
    documentRun o question ev

/-- Core of `answer_question` after keyword preprocessing (lines 420-666):
initialization check, query embedding (falsy result → terminal cannot-process),
retrieval, the explicit web-search attempt when web search is enabled, then
`answerTail`. -/
def answerQuestionCore (o : AGHOracles) (question : String) (enableWeb : Bool) :
    AGHRun :=
  if o.dfLoaded = false then
    ⟨⟨notInitializedAnswer, 0, some initFailWarning, "document"⟩,
      .notInitialized, []⟩
  else
    match o.embed question with
    | none =>
      ⟨⟨cannotProcessAnswer, 0, some embedFailWarning, "document"⟩,
        .cannotProcess, [.embedQuery question]⟩
    | some [] =>
      ⟨⟨cannotProcessAnswer, 0, some embedFailWarning, "document"⟩,
        .cannotProcess, [.embedQuery question]⟩
    | some (_ :: _) =>
      if enableWeb then
        match o.web1 with
        | some (_ :: _) =>
          ⟨⟨o.genWeb1 ++ webFooter1, 7/10, none, "web"⟩, .webAnswer,
            [.embedQuery question, .retrieveChunks,
              .webSearch (aghWebQuery question), .generate]⟩
        | _ =>
          answerTail o question enableWeb
            [.embedQuery question, .retrieveChunks, .webSearch (aghWebQuery question)]
      else
        answerTail o question enableWeb [.embedQuery question, .retrieveChunks]

/-- Full `answer_question`: keyword preprocessing feeding the core. -/
def answerQuestion (o : AGHOracles) (question : String)
    (enableWebSearch : Bool) : AGHRun :=
  answerQuestionCore o (preprocessQuestion question enableWebSearch).1
    (preprocessQuestion question enableWebSearch).2

theorem documentRun_spec (o : AGHOracles) (q : String) (ev : List AGHEvent)
    (hind : o.indices ≠ []) :
    (documentRun o q ev).branch = .documentAnswer ∧
    (documentRun o q ev).resp.answer = fixKnownErrors o.genMain ∧
    (documentRun o q ev).events = ev ++ [.generate] := by
  have hcond : ¬(o.indices = [] ∧
      calculateTrustScore o.stopWords q (fixKnownErrors o.genMain)
        (List.map (fun m => m.2)
          (List.map (fun cm => cm.2)
            (buildPromptAux (basePrompt q) (chunksOf o.rows o.indices)).2)) <
        3 / 10) := fun hand => hind hand.1
  simp only [documentRun]
  rw [if_neg hcond]
  exact ⟨rfl, rfl, rfl⟩

theorem answerTail_branch_doc (o : AGHOracles) (q : String) (w : Bool)
    (ev : List AGHEvent) (hind : o.indices ≠ []) :
    (answerTail o q w ev).branch = .documentAnswer := by
  unfold answerTail
  rw [if_neg hind]
  exact (documentRun_spec o q ev hind).1

theorem answerTail_answer_doc (o : AGHOracles) (q : String) (w : Bool)
    (ev : List AGHEvent) (hind : o.indices ≠ []) :
    (answerTail o q w ev).resp.answer = fixKnownErrors o.genMain := by
  unfold answerTail
  rw [if_neg hind]
  exact (documentRun_spec o q ev hind).2.1

theorem answerTail_events (o : AGHOracles) (q : String) (w : Bool)
    (ev : List AGHEvent) :
    ∃ rest, (answerTail o q w ev).events = ev ++ rest := by
  unfold answerTail
  by_cases h1 : o.indices = []
  · rw [if_pos h1]
    by_cases h2 : w = true
    · rw [if_pos h2]
      cases hw2 : o.web2 with
      | none => exact ⟨[.webSearch (aghWebQuery q)], rfl⟩
      | some l =>
        cases l with
        | nil => exact ⟨[.webSearch (aghWebQuery q)], rfl⟩
        | cons r rs => exact ⟨[.webSearch (aghWebQuery q), .generate], rfl⟩
    · rw [if_neg h2]
      exact ⟨[], (List.append_nil ev).symm⟩
  · rw [if_neg h1]
    exact ⟨[.generate], (documentRun_spec o q ev h1).2.2⟩

/-- The second web attempt fails (exception or empty results). -/
def webFailed2 (o : AGHOracles) : Prop := o.web2 = none ∨ o.web2 = some []

theorem answerTail_noAnswer (o : AGHOracles) (q : String) (ev : List AGHEvent)
    (hind : o.indices = []) (h2 : webFailed2 o) :
    (answerTail o q true ev).branch = .noAnswer := by
  unfold answerTail
  rw [if_pos hind, if_pos rfl]
  rcases h2 with h | h <;> rw [h]

/-- The first web attempt fails (exception or empty results). -/
def webFailed1 (o : AGHOracles) : Prop := o.web1 = none ∨ o.web1 = some []

/-- C3 (amended): with `webSearchRequested = true` and a successful embedding
the pipeline attempts the web search before any answer generation, even when
local candidates exist; but if that web search fails, the request falls back to
the local document answer when candidates exist (`documentAnswer`, not a
no-answer result), and terminates in the no-answer result only when the local
candidate list is also empty and the second web attempt fails too. -/
theorem web_request_override_and_fallback (o : AGHOracles) (q : String)
    (hdf : o.dfLoaded = true) (v : List ℚ) (hv : o.embed q = some v)
    (hne : v ≠ []) :
    (∃ rest, (answerQuestionCore o q true).events =
      [.embedQuery q, .retrieveChunks, .webSearch (aghWebQuery q)] ++ rest) ∧
    (webFailed1 o → o.indices ≠ [] →
      (answerQuestionCore o q true).branch = .documentAnswer) ∧
    (webFailed1 o → o.indices = [] → webFailed2 o →
      (answerQuestionCore o q true).branch = .noAnswer) := by
  obtain ⟨x, xs, rfl⟩ : ∃ x xs, v = x :: xs := by
    cases v with
    | nil => exact absurd rfl hne
    | cons x xs => exact ⟨x, xs, rfl⟩
  refine ⟨?_, ?_, ?_⟩
  · simp only [answerQuestionCore, hdf, hv]
    cases hw : o.web1 with
    | none =>
      simp only [Bool.false_eq_true, if_false, if_true]
      exact answerTail_events o q true _
    | some l =>
      cases l with
      | nil =>
        simp only [Bool.false_eq_true, if_false, if_true]
        exact answerTail_events o q true _
      | cons r rs =>
        simp only [Bool.false_eq_true, if_false, if_true]
        exact ⟨[.generate], rfl⟩
  · intro hwf hind
    rcases hwf with hw | hw <;>
      simp only [answerQuestionCore, hdf, hv, hw, Bool.false_eq_true, if_false,
        if_true] <;>
      exact answerTail_branch_doc o q true _ hind
  · intro hwf hind hwf2
    rcases hwf with hw | hw <;>
      simp only [answerQuestionCore, hdf, hv, hw, Bool.false_eq_true, if_false,
        if_true] <;>
      exact answerTail_noAnswer o q _ hind hwf2

/-- Concrete oracle set for the C3 scenario: loaded store with one document,
successful embedding, one local candidate, both web calls failing. -/
def c3Oracles : AGHOracles :=
  ⟨true, [("T1", "C1")], fun _ => some [1], [0], none, none, "", "", "a", "", []⟩

/-- Counterexample to C3 as stated: with web search requested, a non-empty
local candidate list and a failed web search, the run terminates in the
document-grounded answer, not in a no-answer result. -/
theorem web_fail_falls_back_to_documents_cex :
    (answerQuestionCore c3Oracles "q" true).branch = .documentAnswer ∧
    (answerQuestionCore c3Oracles "q" true).branch ≠ .noAnswer ∧
    (answerQuestionCore c3Oracles "q" true).resp.sources_type = "document" := by
  decide

/-- Witness for C3 at the concrete oracle set. -/
theorem web_request_override_and_fallback_witness :
    (∃ rest, (answerQuestionCore c3Oracles "q" true).events =
      [.embedQuery "q", .retrieveChunks, .webSearch (aghWebQuery "q")] ++ rest) ∧
    (answerQuestionCore c3Oracles "q" true).branch = .documentAnswer :=
  have h := web_request_override_and_fallback c3Oracles "q" (by decide) [1]
    (by decide) (by decide)
  ⟨h.1, h.2.1 (Or.inl (by decide)) (by decide)⟩

/-- C7 (amended): a falsy embedding result (`None` or an empty vector) yields
the terminal cannot-process response with trust score exactly 0, warning
`Embedding generation failed` and `sources_type = "document"` (there is no
`none` source type in the code), without attempting retrieval, web search or
generation — the only external call made is the embedding itself. -/
theorem embed_failure_terminal (o : AGHOracles) (q : String) (flag : Bool)
    (hdf : o.dfLoaded = true)
    (hembed : o.embed q = none ∨ o.embed q = some []) :
    answerQuestionCore o q flag =
      ⟨⟨cannotProcessAnswer, 0, some embedFailWarning, "document"⟩,
        .cannotProcess, [.embedQuery q]⟩ := by
  rcases hembed with h | h <;> simp [answerQuestionCore, hdf, h]

/-- Concrete oracle set whose embedding call fails. -/
def c7Oracles : AGHOracles :=
  ⟨true, [], fun _ => none, [], none, none, "", "", "", "", []⟩

/-- Counterexample to C7 as stated: the cannot-process response carries
`sources_type = "document"`, not a `none` source type. -/
theorem embed_failure_sourcetype_cex :
    (answerQuestionCore c7Oracles "question" false).resp.trust_score = 0 ∧
    (answerQuestionCore c7Oracles "question" false).resp.sources_type
      = "document" ∧
    (answerQuestionCore c7Oracles "question" false).resp.sources_type
      ≠ "none" := by
  decide

/-- Witness for C7 at the concrete oracle set. -/
theorem embed_failure_terminal_witness :
    answerQuestionCore c7Oracles "question" false =
      ⟨⟨cannotProcessAnswer, 0, some embedFailWarning, "document"⟩,
        .cannotProcess, [.embedQuery "question"]⟩ :=
  embed_failure_terminal c7Oracles "question" false (by decide)
    (Or.inl (by decide))

/-- C9: a search keyword appearing in the lowercased question force-enables web
search regardless of the `enable_web_search` argument, and the question passed
on to embedding and answering is the cleaned question: the case-sensitive
occurrences of each keyword removed in list order with a strip after each
removal — so a question merely containing "research" is rewritten and escalated
to web search. -/
theorem web_keyword_override (o : AGHOracles) (q : String) (flag : Bool)
    (h : hasSearchKeyword q = true) :
    preprocessQuestion q flag = (cleanQuestion q, true) ∧
    answerQuestion o q flag = answerQuestionCore o (cleanQuestion q) true := by
  constructor
  · unfold preprocessQuestion
    rw [if_pos h]
  · unfold answerQuestion preprocessQuestion
    rw [if_pos h]

/-- Witness for C9: "research grading" contains the keyword "search", is
rewritten to "re grading", and web search is forced on. -/
theorem web_keyword_override_witness :
    preprocessQuestion "research grading" false
      = (cleanQuestion "research grading", true) ∧
    cleanQuestion "research grading" = "re grading" :=
  ⟨(web_keyword_override c7Oracles "research grading" false (by decide)).1,
    by decide⟩

/-- C10 (amended): every document-grounded answer is the generated text passed
through `_fix_known_errors`, and the result never contains a
word-boundary-delimited occurrence of `60/100`; occurrences adjacent to a word
character (such as in `160/100`) are not replaced and can remain. -/
theorem document_answer_fix_known_errors (o : AGHOracles) (q : String)
    (hdf : o.dfLoaded = true) (v : List ℚ) (hv : o.embed q = some v)
    (hne : v ≠ []) (hind : o.indices ≠ []) :
    (answerQuestionCore o q false).branch = .documentAnswer ∧
    (answerQuestionCore o q false).resp.answer = fixKnownErrors o.genMain ∧
    (∀ a : String, hasBOcc (fixKnownErrors a) = false) := by
  obtain ⟨x, xs, rfl⟩ : ∃ x xs, v = x :: xs := by
    cases v with
    | nil => exact absurd rfl hne
    | cons x xs => exact ⟨x, xs, rfl⟩
  refine ⟨?_, ?_, fun a => fixKnownErrors_no_bocc a⟩
  · simp only [answerQuestionCore, hdf, hv, Bool.false_eq_true, if_false]
    exact answerTail_branch_doc o q false _ hind
  · simp only [answerQuestionCore, hdf, hv, Bool.false_eq_true, if_false]
    exact answerTail_answer_doc o q false _ hind

/-- Concrete oracle set whose generated document answer is `160/100`. -/
def c10Oracles : AGHOracles :=
  ⟨true, [("T", "C")], fun _ => some [1], [0], none, none, "", "", "160/100",
    "", []⟩

/-- Counterexample to C10 as stated: the generated answer `160/100` passes
through `_fix_known_errors` unchanged, and the document-grounded answer
returned to the caller does contain the substring `60/100`. -/
theorem fix_known_errors_leaves_60_100_cex :
    (answerQuestionCore c10Oracles "q" false).branch = .documentAnswer ∧
    (answerQuestionCore c10Oracles "q" false).resp.answer = "160/100" ∧
    strContains ((answerQuestionCore c10Oracles "q" false).resp.answer)
      "60/100" = true := by
  decide

/-- Witness for C10 at the concrete oracle set. -/
theorem document_answer_fix_known_errors_witness :
    (answerQuestionCore c10Oracles "q" false).branch = .documentAnswer ∧
    (answerQuestionCore c10Oracles "q" false).resp.answer
      = fixKnownErrors c10Oracles.genMain ∧
    hasBOcc (fixKnownErrors "x 60/100") = false :=
  have h := document_answer_fix_known_errors c10Oracles "q" (by decide) [1]
    (by decide) (by decide) (by decide)
  ⟨h.1, h.2.1, h.2.2 "x 60/100"⟩
